import Mathlib

/-!
Shallow embedding of the ECG bill calculator engine
(src/unnamed/part_000, mirrored in src/pages/ecg-bill-calculator.tsx).

JavaScript numbers are modelled as rationals; the `Infinity` sentinel used
as the last band limit is modelled by the tagged value `ELimit.inf`, so
that `Math.min(remaining, band.limit)` with an infinite limit returns
`remaining` exactly as IEEE `Math.min` does for finite `remaining`.
-/

namespace EcgBillCalc

/-- A band limit: a finite number or the `Infinity` sentinel of the source. -/
inductive ELimit where
  | fin (q : ℚ)
  | inf
deriving DecidableEq, Repr

/-- `type Band = { limit: number; rate: number }`. -/
structure Band where
  limit : ELimit
  rate : ℚ
deriving DecidableEq, Repr

/-- `type TariffKey = "residential" | "nonResidential"`. -/
inductive TariffKey where
  | residential
  | nonResidential
deriving DecidableEq, Repr

/-- The `initialRates` table of the source. -/
def initialRates : TariffKey → List Band
  | .residential =>
      [⟨.fin 50, 1.4878⟩, ⟨.fin 250, 1.9⟩, ⟨.fin 300, 2.3⟩, ⟨.inf, 2.5⟩]
  | .nonResidential => [⟨.inf, 1.59⟩]

/-- `serviceChargeFlat` of the source. -/
def serviceChargeFlat : TariffKey → ℚ
  | .residential => 2.13
  | .nonResidential => 12.43

def streetLightRate : ℚ := 0.03
def nelRate : ℚ := 0.02
def nhilGetRate : ℚ := 0.05
def vatRate : ℚ := 0.15

/-- `Math.min(remaining, band.limit)`: for a finite `remaining`,
`Math.min(remaining, Infinity) = remaining`. -/
def minLimit (remaining : ℚ) : ELimit → ℚ
  | .fin q => min remaining q
  | .inf => remaining

/-- One entry of `bandBreakdown`: `{ used, rate, cost }`. -/
structure BandUse where
  used : ℚ
  rate : ℚ
  cost : ℚ
deriving DecidableEq, Repr

/-- The progressive allocation loop of `calculateBill`:
`for (const band of bands) { if (remaining <= 0) break;
  const used = Math.min(remaining, band.limit); const cost = used * band.rate;
  bandBreakdown.push({ used, rate: band.rate, cost }); remaining -= used; }`. -/
def allocate : List Band → ℚ → List BandUse
  | [], _ => []
  | b :: rest, remaining =>
      if remaining ≤ 0 then []
      else
        let used := minLimit remaining b.limit
        ⟨used, b.rate, used * b.rate⟩ :: allocate rest (remaining - used)

/-- The billing request: the component-state inputs read by `calculateBill`. -/
structure Request where
  prevReading : ℚ
  currReading : ℚ
  billingDays : ℚ
  prevBalance : ℚ
  payments : ℚ
  adjustment : ℚ
  tariffType : TariffKey
  quickMode : Bool
deriving DecidableEq, Repr

/-- `type CalculationResults` of the source. -/
structure CalculationResults where
  units : ℚ
  bandBreakdown : List BandUse
  energyCost : ℚ
  serviceCharge : ℚ
  natElectLevy : ℚ
  streetLight : ℚ
  nhilGetFund : ℚ
  vat : ℚ
  totalBill : ℚ
  adjustment : ℚ
  payable : ℚ
deriving DecidableEq, Repr

/-- `calculateBill` of src/unnamed/part_000.  The loop accumulates
`energyCost += cost` over exactly the pushed entries, so `energyCost` is the
sum of the `cost` fields of the breakdown. -/
def calculateBill (rates : TariffKey → List Band) (req : Request) :
    CalculationResults :=
  let units := max (req.currReading - req.prevReading) 0
  let bands := rates req.tariffType
  let bandBreakdown := allocate bands units
  let energyCost := (bandBreakdown.map (fun e => e.cost)).sum
  let days := if req.quickMode then 31 else req.billingDays
  let balance := if req.quickMode then 0 else req.prevBalance
  let paid := if req.quickMode then 0 else req.payments
  let adj := if req.quickMode then 0 else req.adjustment
  let streetLight := energyCost * streetLightRate
  let natElectLevy := energyCost * nelRate
  let nhilGetFund :=
    if req.tariffType = .nonResidential then energyCost * nhilGetRate else 0
  let vatBase :=
    if req.tariffType = .nonResidential then
      energyCost + streetLight + natElectLevy + nhilGetFund
    else 0
  let vat := if req.tariffType = .nonResidential then vatBase * vatRate else 0
  let serviceCharge := serviceChargeFlat req.tariffType * (days / 31)
  let totalBill :=
    energyCost + streetLight + natElectLevy + nhilGetFund + vat + serviceCharge
  let payable := totalBill + balance - paid + adj
  { units := units
    bandBreakdown := bandBreakdown
    energyCost := energyCost
    serviceCharge := serviceCharge
    natElectLevy := natElectLevy
    streetLight := streetLight
    nhilGetFund := nhilGetFund
    vat := vat
    totalBill := totalBill
    adjustment := adj
    payable := payable }

/-- A limit is non-negative: finite and `≥ 0`, or infinite. -/
def ELimit.nonneg : ELimit → Prop
  | .fin q => 0 ≤ q
  | .inf => True

instance : DecidablePred ELimit.nonneg := fun l => by
  cases l <;> {simp [ELimit.nonneg]; infer_instance}

/-- `Partial<Band>`: the caller-supplied field updates of `updateBand`. -/
structure BandUpdate where
  limit : Option ELimit
  rate : Option ℚ
deriving DecidableEq, Repr

/-- A JavaScript object carrying the (optional) `Band` fields: object spread
over `undefined` can build objects missing either field. -/
structure BandObj where
  limit : Option ELimit
  rate : Option ℚ
deriving DecidableEq, Repr

/-- A JavaScript array element; `none` models a hole (read back as
`undefined`), as produced by assigning past the end of the array. -/
abbrev JsEntry := Option BandObj

/-- The embedding of a proper band as an array element. -/
def Band.toEntry (b : Band) : JsEntry := some ⟨some b.limit, some b.rate⟩

/-- `{ ...current, ...updates }`: fields present in `updates` override those
of `current`; spreading `undefined` contributes no fields. -/
def mergeSpread (current : JsEntry) (u : BandUpdate) : BandObj :=
  match current with
  | none => ⟨u.limit, u.rate⟩
  | some c =>
      ⟨match u.limit with | some l => some l | none => c.limit,
       match u.rate with | some q => some q | none => c.rate⟩

/-- `updateBand`: `const current = arr[index]; arr[index] = { ...current,
...updates }` on a copy of the band array.  JavaScript array assignment at a
negative key sets a non-index own property and leaves the element sequence
unchanged; at `index ≥ length` it grows the array to `index + 1` elements,
leaving holes before the new element. -/
def updateBand (arr : List JsEntry) (index : Int) (u : BandUpdate) :
    List JsEntry :=
  if index < 0 then arr
  else
    let i := index.toNat
    if h : i < arr.length then
      arr.set i (some (mergeSpread (arr.get ⟨i, h⟩) u))
    else
      arr ++ List.replicate (i - arr.length) none ++ [some (mergeSpread none u)]

/-- `arr.splice(start, 0, item)`: `Array.prototype.splice` clamps a negative
`start` to `max(length + start, 0)` and a too-large `start` to `length`. -/
def spliceInsert (arr : List Band) (start : Int) (item : Band) : List Band :=
  let s : Nat :=
    if start < 0 then (start + arr.length).toNat else min start.toNat arr.length
  arr.take s ++ item :: arr.drop s

/-- `addBandBeforeInfinity`:
`arr.splice(arr.length - 1, 0, { limit: 100, rate: 0 })`. -/
def addBandBeforeInfinity (arr : List Band) : List Band :=
  spliceInsert arr ((arr.length : Int) - 1) ⟨.fin 100, 0⟩

/-- `removeBand`: `const lastIndex = arr.length - 1;
if (index >= 0 && index < lastIndex) arr.splice(index, 1)`. -/
def removeBand (arr : List Band) (index : Int) : List Band :=
  if 0 ≤ index ∧ index < (arr.length : Int) - 1 then
    arr.eraseIdx index.toNat
  else arr

lemma allocate_nonpos (bands : List Band) (r : ℚ) (h : r ≤ 0) :
    allocate bands r = [] := by
  cases bands <;> simp [allocate, h]

lemma allocate_cons_pos (b : Band) (rest : List Band) (r : ℚ) (h : 0 < r) :
    allocate (b :: rest) r =
      ⟨minLimit r b.limit, b.rate, minLimit r b.limit * b.rate⟩ ::
        allocate rest (r - minLimit r b.limit) := by
  simp [allocate, not_le.mpr h]

lemma allocate_cons_eq_nil (b : Band) (rest : List Band) (r : ℚ)
    (h : allocate (b :: rest) r = []) : r ≤ 0 := by
  by_contra hr
  rw [allocate_cons_pos b rest r (not_le.mp hr)] at h
  exact List.cons_ne_nil _ _ h

lemma minLimit_le (r : ℚ) (l : ELimit) : minLimit r l ≤ r := by
  cases l with
  | fin q => exact min_le_left r q
  | inf => exact le_refl r

/-- Sum of `used` over the breakdown equals the consumed units, whenever the
last band is unbounded. -/
lemma allocate_used_sum (bands : List Band) (r : ℚ) (hr : 0 ≤ r)
    (hlast : ∃ b, bands.getLast? = some b ∧ b.limit = ELimit.inf) :
    ((allocate bands r).map (fun e => e.used)).sum = r := by
  induction bands generalizing r with
  | nil => simp at hlast
  | cons b rest ih =>
      rcases le_or_lt r 0 with h0 | h0
      · have hr0 : r = 0 := le_antisymm h0 hr
        subst hr0
        simp [allocate_nonpos _ _ le_rfl]
      · rw [allocate_cons_pos b rest r h0]
        cases rest with
        | nil =>
            obtain ⟨c, hc, hcl⟩ := hlast
            simp only [List.getLast?_singleton, Option.some.injEq] at hc
            subst hc
            simp [minLimit, hcl, allocate]
        | cons c cs =>
            obtain ⟨d, hd, hdl⟩ := hlast
            rw [List.getLast?_cons_cons] at hd
            have hr' : 0 ≤ r - minLimit r b.limit :=
              sub_nonneg.mpr (minLimit_le r b.limit)
            have := ih (r - minLimit r b.limit) hr' ⟨d, hd, hdl⟩
            simp only [List.map_cons, List.sum_cons, this]
            ring

/-- The last emitted breakdown entry has non-zero `used`, whenever the last
band is unbounded. -/
lemma allocate_getLast_used_ne_zero (bands : List Band) (r : ℚ) (hr : 0 ≤ r)
    (hlast : ∃ b, bands.getLast? = some b ∧ b.limit = ELimit.inf) :
    ∀ e, (allocate bands r).getLast? = some e → e.used ≠ 0 := by
  induction bands generalizing r with
  | nil => simp [allocate]
  | cons b rest ih =>
      intro e he
      rcases le_or_lt r 0 with h0 | h0
      · rw [allocate_nonpos _ _ h0] at he
        simp at he
      · rw [allocate_cons_pos b rest r h0] at he
        cases htail : allocate rest (r - minLimit r b.limit) with
        | nil =>
            rw [htail, List.getLast?_singleton, Option.some.injEq] at he
            subst he
            cases rest with
            | nil =>
                obtain ⟨c, hc, hcl⟩ := hlast
                simp only [List.getLast?_singleton, Option.some.injEq] at hc
                subst hc
                simp only [minLimit, hcl]
                exact ne_of_gt h0
            | cons c cs =>
                have := allocate_cons_eq_nil c cs _ htail
                have hge : r ≤ minLimit r b.limit := by linarith [sub_nonpos.mp this]
                exact ne_of_gt (lt_of_lt_of_le h0 hge)
        | cons e0 tail0 =>
            rw [htail, List.getLast?_cons_cons] at he
            cases rest with
            | nil => simp [allocate] at htail
            | cons c cs =>
                obtain ⟨d, hd, hdl⟩ := hlast
                rw [List.getLast?_cons_cons] at hd
                have hr' : 0 ≤ r - minLimit r b.limit :=
                  sub_nonneg.mpr (minLimit_le r b.limit)
                exact ih (r - minLimit r b.limit) hr' ⟨d, hd, hdl⟩ e
                  (htail ▸ he)

/-- Every proper prefix of the breakdown has `used`-sum strictly below the
consumed units: no entry is emitted once `remaining` has reached zero. -/
lemma allocate_take_sum_lt (bands : List Band) (r : ℚ) :
    ∀ i < (allocate bands r).length,
      (((allocate bands r).take i).map (fun e => e.used)).sum < r := by
  induction bands generalizing r with
  | nil => simp [allocate]
  | cons b rest ih =>
      intro i hi
      rcases le_or_lt r 0 with h0 | h0
      · rw [allocate_nonpos _ _ h0] at hi
        simp at hi
      · rw [allocate_cons_pos b rest r h0] at hi ⊢
        cases i with
        | zero => simpa using h0
        | succ j =>
            simp only [List.length_cons, Nat.succ_lt_succ_iff] at hi
            have := ih (r - minLimit r b.limit) j hi
            simp only [List.take_succ_cons, List.map_cons, List.sum_cons]
            linarith

/-- C1: for every schedule whose last band is unbounded and whose bands all
have non-negative limits, and every non-negative `unitsConsumed`, the
progressive allocation loop of `calculateBill` produces a band breakdown
whose `used` fields sum exactly to `unitsConsumed`; its last entry (when the
breakdown is non-empty) has non-zero `used`; and no entry is emitted for
bands after the one where `remaining` reached zero (every proper prefix of
the breakdown has `used`-sum strictly below `unitsConsumed`). -/
theorem spec_C1 (bands : List Band) (units : ℚ)
    (hlast : ∃ b, bands.getLast? = some b ∧ b.limit = ELimit.inf)
    (_hnn : ∀ b ∈ bands, b.limit.nonneg)
    (hu : 0 ≤ units) :
    ((allocate bands units).map (fun e => e.used)).sum = units
    ∧ (∀ e, (allocate bands units).getLast? = some e → e.used ≠ 0)
    ∧ ∀ i < (allocate bands units).length,
        (((allocate bands units).take i).map (fun e => e.used)).sum < units :=
  ⟨allocate_used_sum bands units hu hlast,
   allocate_getLast_used_ne_zero bands units hu hlast,
   allocate_take_sum_lt bands units⟩

/-- Witness for C1: the default residential schedule with 120 units. -/
theorem spec_C1_witness :
    ((allocate (initialRates .residential) 120).map (fun e => e.used)).sum = 120
    ∧ (∀ e, (allocate (initialRates .residential) 120).getLast? = some e →
        e.used ≠ 0)
    ∧ ∀ i < (allocate (initialRates .residential) 120).length,
        (((allocate (initialRates .residential) 120).take i).map
          (fun e => e.used)).sum < 120 :=
  spec_C1 (initialRates .residential) 120
    ⟨⟨ELimit.inf, 2.5⟩, rfl, rfl⟩ (by decide) (by decide)

/-- C2 counterexample: on the default residential schedule (length 4), the
out-of-range index 4 is not a no-op: the assignment grows the array to five
elements. -/
theorem spec_C2_cex :
    updateBand ((initialRates .residential).map Band.toEntry) 4
        ⟨some (.fin 100), some 1⟩
      ≠ (initialRates .residential).map Band.toEntry := by
  intro h
  have hlen := congrArg List.length h
  simp [updateBand, initialRates] at hlen

/-- C2 amended: `updateBand` is a no-op only for negative indices; for
`index ≥ length` the assignment grows the array to `index + 1` elements
(holes, then an object built from the partial fields), so the schedule
changes. -/
theorem spec_C2_amended (arr : List JsEntry) (index : Int) (u : BandUpdate) :
    (index < 0 → updateBand arr index u = arr)
    ∧ (0 ≤ index → (arr.length : Int) ≤ index →
        (updateBand arr index u).length = index.toNat + 1
        ∧ updateBand arr index u ≠ arr) := by
  constructor
  · intro h
    simp [updateBand, h]
  · intro h0 hlen
    have hge : arr.length ≤ index.toNat := by omega
    have hres : updateBand arr index u =
        arr ++ List.replicate (index.toNat - arr.length) none
            ++ [some (mergeSpread none u)] := by
      simp [updateBand, not_lt.mpr h0, not_lt.mpr hge]
    have hlen2 : (updateBand arr index u).length = index.toNat + 1 := by
      rw [hres]
      simp
      omega
    refine ⟨hlen2, fun heq => ?_⟩
    rw [heq] at hlen2
    omega

/-- Witness for C2 amended: a negative index is a no-op on the default
residential schedule, and index 6 on that length-4 schedule grows it to 7
elements. -/
theorem spec_C2_witness :
    updateBand ((initialRates .residential).map Band.toEntry) (-1)
        ⟨some (.fin 10), none⟩ = (initialRates .residential).map Band.toEntry
    ∧ (updateBand ((initialRates .residential).map Band.toEntry) 6
        ⟨none, some 3⟩).length = 7 :=
  ⟨(spec_C2_amended _ (-1) _).1 (by decide),
   ((spec_C2_amended _ 6 _).2 (by decide) (by simp [initialRates])).1⟩

lemma getLast?_eraseIdx_of_lt (l : List Band) (i : Nat)
    (h : i < l.length - 1) : (l.eraseIdx i).getLast? = l.getLast? := by
  have hdrop : l.drop (i + 1) ≠ [] := by
    intro hd
    rw [List.drop_eq_nil_iff] at hd
    omega
  rw [List.eraseIdx_eq_take_drop_succ]
  rw [List.getLast?_append_of_ne_nil _ hdrop]
  conv_rhs => rw [← List.take_append_drop (i + 1) l]
  rw [List.getLast?_append_of_ne_nil _ hdrop]

/-- C3: `removeBand` deletes the band at `index` exactly when
`0 ≤ index < lastIndex`, otherwise leaves the list unchanged; it never
removes the last (unbounded) band and never reduces the band count to
zero. -/
theorem spec_C3 (arr : List Band) (index : Int) :
    (0 ≤ index → index < (arr.length : Int) - 1 →
        removeBand arr index = arr.eraseIdx index.toNat
        ∧ (removeBand arr index).length = arr.length - 1)
    ∧ (¬(0 ≤ index ∧ index < (arr.length : Int) - 1) →
        removeBand arr index = arr)
    ∧ (removeBand arr index).getLast? = arr.getLast?
    ∧ (arr ≠ [] → removeBand arr index ≠ []) := by
  by_cases hc : 0 ≤ index ∧ index < (arr.length : Int) - 1
  · have hres : removeBand arr index = arr.eraseIdx index.toNat := by
      simp [removeBand, hc]
    have hi : index.toNat < arr.length - 1 := by omega
    have hlen : (removeBand arr index).length = arr.length - 1 := by
      rw [hres, List.length_eraseIdx]
      simp [Nat.lt_of_lt_of_le hi (Nat.sub_le _ _)]
    refine ⟨fun _ _ => ⟨hres, hlen⟩, fun hn => absurd hc hn, ?_, ?_⟩
    · rw [hres]
      exact getLast?_eraseIdx_of_lt arr index.toNat hi
    · intro hne hnil
      have := congrArg List.length hnil
      rw [hlen] at this
      simp at this
      omega
  · have hres : removeBand arr index = arr := by
      simp only [removeBand, if_neg hc]
    refine ⟨fun h1 h2 => absurd ⟨h1, h2⟩ hc, fun _ => hres, by rw [hres],
      fun hne => by rw [hres]; exact hne⟩

/-- Witness for C3: index 1 deletes band 1 of the default residential
schedule, index 3 (the unbounded band) and index -2 are no-ops, and the last
band survives. -/
theorem spec_C3_witness :
    removeBand (initialRates .residential) 1 =
        (initialRates .residential).eraseIdx 1
    ∧ removeBand (initialRates .residential) 3 = initialRates .residential
    ∧ removeBand (initialRates .residential) (-2) = initialRates .residential
    ∧ (removeBand (initialRates .residential) 1).getLast? =
        (initialRates .residential).getLast? :=
  ⟨((spec_C3 (initialRates .residential) 1).1 (by decide)
      (by simp [initialRates])).1,
   (spec_C3 (initialRates .residential) 3).2.1 (by simp [initialRates]),
   (spec_C3 (initialRates .residential) (-2)).2.1 (by simp),
   (spec_C3 (initialRates .residential) 1).2.2.1⟩

/-- C7: on a non-empty band list whose last element is the unbounded band,
`addBandBeforeInfinity` inserts exactly one new band with the default limit
100 and zero rate immediately before the last position: the result is
`dropLast ++ [new, last]`, so the unbounded band is still the unique last
band, every pre-existing band is unchanged, and the length grows by one. -/
theorem spec_C7 (arr : List Band) (hne : arr ≠ [])
    (hlast : ∃ b, arr.getLast? = some b ∧ b.limit = ELimit.inf) :
    addBandBeforeInfinity arr =
        arr.dropLast ++ ⟨.fin 100, 0⟩ :: [arr.getLast hne]
    ∧ (addBandBeforeInfinity arr).length = arr.length + 1
    ∧ (addBandBeforeInfinity arr).getLast? = arr.getLast?
    ∧ (∃ b, (addBandBeforeInfinity arr).getLast? = some b
        ∧ b.limit = ELimit.inf)
    ∧ ((∀ b ∈ arr.dropLast, b.limit ≠ ELimit.inf) →
        ∀ b ∈ (addBandBeforeInfinity arr).dropLast, b.limit ≠ ELimit.inf) := by
  obtain ⟨L, a, rfl⟩ : ∃ L a, arr = L ++ [a] :=
    ⟨arr.dropLast, arr.getLast hne, (List.dropLast_append_getLast hne).symm⟩
  have hga : (L ++ [a]).getLast hne = a := by
    have h1 := List.getLast?_eq_getLast (L ++ [a]) hne
    rw [List.getLast?_concat] at h1
    exact (Option.some.inj h1).symm
  have hassoc : ∀ c : Band, L ++ c :: [a] = (L ++ [c]) ++ [a] := by
    intro c
    simp
  have hmain : addBandBeforeInfinity (L ++ [a]) =
      L ++ ⟨.fin 100, 0⟩ :: [a] := by
    unfold addBandBeforeInfinity spliceInsert
    have hstart : ¬ (((L ++ [a]).length : Int) - 1 < 0) := by simp
    have htn : (((L ++ [a]).length : Int) - 1).toNat = L.length := by simp
    have hmin : min L.length (L ++ [a]).length = L.length := by
      simp
    simp only [if_neg hstart, htn, hmin, List.take_left, List.drop_left]
  rw [List.dropLast_concat, hga, hmain]
  refine ⟨rfl, by simp, ?_, ?_, ?_⟩
  · rw [hassoc, List.getLast?_concat, List.getLast?_concat]
  · obtain ⟨b, hb, hbl⟩ := hlast
    rw [List.getLast?_concat, Option.some.injEq] at hb
    refine ⟨a, ?_, hb ▸ hbl⟩
    rw [hassoc, List.getLast?_concat]
  · intro hbd b hb
    rw [hassoc, List.dropLast_concat, List.mem_append] at hb
    rcases hb with hb | hb
    · exact hbd b hb
    · simp at hb
      subst hb
      simp

/-- Witness for C7: the default residential schedule. -/
theorem spec_C7_witness :
    (addBandBeforeInfinity (initialRates .residential)).length =
        (initialRates .residential).length + 1
    ∧ (addBandBeforeInfinity (initialRates .residential)).getLast? =
        (initialRates .residential).getLast?
    ∧ (∃ b, (addBandBeforeInfinity (initialRates .residential)).getLast? =
        some b ∧ b.limit = ELimit.inf) :=
  ⟨(spec_C7 (initialRates .residential) (by decide)
      ⟨⟨ELimit.inf, 2.5⟩, rfl, rfl⟩).2.1,
   (spec_C7 (initialRates .residential) (by decide)
      ⟨⟨ELimit.inf, 2.5⟩, rfl, rfl⟩).2.2.1,
   (spec_C7 (initialRates .residential) (by decide)
      ⟨⟨ELimit.inf, 2.5⟩, rfl, rfl⟩).2.2.2.1⟩

/-- C4: in quick mode the result of `calculateBill` is independent of
`billingDays`, `prevBalance`, `payments` and `adjustment`: two quick-mode
requests agreeing on the readings and tariff class give identical results;
the service charge is the full flat monthly amount (days treated as 31) and
`payable` equals `totalBill`. -/
theorem spec_C4 (rates : TariffKey → List Band) (req req' : Request)
    (hq : req.quickMode = true) (hq' : req'.quickMode = true)
    (hp : req.prevReading = req'.prevReading)
    (hc : req.currReading = req'.currReading)
    (ht : req.tariffType = req'.tariffType) :
    calculateBill rates req = calculateBill rates req'
    ∧ (calculateBill rates req).serviceCharge =
        serviceChargeFlat req.tariffType
    ∧ (calculateBill rates req).payable = (calculateBill rates req).totalBill := by
  obtain ⟨p, c, d, pb, pay, adj, t, q⟩ := req
  obtain ⟨p', c', d', pb', pay', adj', t', q'⟩ := req'
  simp only at hq hq' hp hc ht
  subst hq hq' hp hc ht
  exact ⟨by simp [calculateBill], by simp [calculateBill],
    by simp [calculateBill]⟩

/-- Witness for C4: two quick-mode residential requests differing in the
four detailed-mode fields. -/
theorem spec_C4_witness :
    calculateBill initialRates
        (Request.mk 100 220 31 0 0 0 .residential true) =
      calculateBill initialRates
        (Request.mk 100 220 15 50 20 5 .residential true)
    ∧ (calculateBill initialRates
        (Request.mk 100 220 31 0 0 0 .residential true)).serviceCharge =
        serviceChargeFlat .residential
    ∧ (calculateBill initialRates
        (Request.mk 100 220 31 0 0 0 .residential true)).payable =
        (calculateBill initialRates
          (Request.mk 100 220 31 0 0 0 .residential true)).totalBill :=
  spec_C4 initialRates (Request.mk 100 220 31 0 0 0 .residential true)
    (Request.mk 100 220 15 50 20 5 .residential true) rfl rfl rfl rfl rfl

/-- C5: the NHIL/GETFund levy and VAT are zero for residential requests; for
non-residential requests NHIL/GETFund is 5% of the energy cost and VAT is
15% of (energy cost + street light levy + national electrification levy +
NHIL/GETFund); the street light levy is 3% and the national electrification
levy 2% of the energy cost for both classes. -/
theorem spec_C5 (rates : TariffKey → List Band) (req : Request) :
    (req.tariffType = .residential →
        (calculateBill rates req).nhilGetFund = 0
        ∧ (calculateBill rates req).vat = 0)
    ∧ (req.tariffType = .nonResidential →
        (calculateBill rates req).nhilGetFund =
            (calculateBill rates req).energyCost * 0.05
        ∧ (calculateBill rates req).vat =
            0.15 * ((calculateBill rates req).energyCost
              + (calculateBill rates req).streetLight
              + (calculateBill rates req).natElectLevy
              + (calculateBill rates req).nhilGetFund))
    ∧ (calculateBill rates req).streetLight =
        (calculateBill rates req).energyCost * 0.03
    ∧ (calculateBill rates req).natElectLevy =
        (calculateBill rates req).energyCost * 0.02 := by
  obtain ⟨p, c, d, pb, pay, adj, t, q⟩ := req
  cases t with
  | residential =>
      exact ⟨fun _ => ⟨by simp [calculateBill], by simp [calculateBill]⟩,
        fun h => by simp at h,
        by simp [calculateBill, streetLightRate],
        by simp [calculateBill, nelRate]⟩
  | nonResidential =>
      refine ⟨fun h => by simp at h, fun _ => ⟨?_, ?_⟩, ?_, ?_⟩
      · simp [calculateBill, nhilGetRate]
      · simp [calculateBill, streetLightRate, nelRate, nhilGetRate, vatRate]
        ring
      · simp [calculateBill, streetLightRate]
      · simp [calculateBill, nelRate]

/-- Witness for C5: a residential and a non-residential request. -/
theorem spec_C5_witness :
    (calculateBill initialRates
        (Request.mk 100 220 31 0 0 0 .residential true)).nhilGetFund = 0
    ∧ (calculateBill initialRates
        (Request.mk 100 220 31 0 0 0 .residential true)).vat = 0
    ∧ (calculateBill initialRates
        (Request.mk 0 500 31 50 20 5 .nonResidential false)).nhilGetFund =
        (calculateBill initialRates
          (Request.mk 0 500 31 50 20 5 .nonResidential false)).energyCost
          * 0.05 :=
  ⟨((spec_C5 initialRates
      (Request.mk 100 220 31 0 0 0 .residential true)).1 rfl).1,
   ((spec_C5 initialRates
      (Request.mk 100 220 31 0 0 0 .residential true)).1 rfl).2,
   ((spec_C5 initialRates
      (Request.mk 0 500 31 50 20 5 .nonResidential false)).2.1 rfl).1⟩

/-- C6: `totalBill` is the sum of energy cost, street light levy, national
electrification levy, NHIL/GETFund levy, VAT and service charge, and
`payable` is `totalBill + priorBalance - paymentsReceived + manualAdjustment`
taken at the mode-gated (detailed-mode pass-through) values of those three
fields. -/
theorem spec_C6 (rates : TariffKey → List Band) (req : Request) :
    (calculateBill rates req).totalBill =
        (calculateBill rates req).energyCost
          + (calculateBill rates req).streetLight
          + (calculateBill rates req).natElectLevy
          + (calculateBill rates req).nhilGetFund
          + (calculateBill rates req).vat
          + (calculateBill rates req).serviceCharge
    ∧ (calculateBill rates req).payable =
        (calculateBill rates req).totalBill
          + (if req.quickMode then 0 else req.prevBalance)
          - (if req.quickMode then 0 else req.payments)
          + (if req.quickMode then 0 else req.adjustment) := by
  obtain ⟨p, c, d, pb, pay, adj, t, q⟩ := req
  cases q <;> exact ⟨by simp [calculateBill], by simp [calculateBill]⟩

/-- C8: in detailed mode the service charge is the class flat monthly
constant times `billingDays / 31`, so it scales linearly in the period
length: with 62 days it is exactly twice the charge with 31 days. -/
theorem spec_C8 (rates : TariffKey → List Band) (req : Request)
    (hq : req.quickMode = false) :
    (calculateBill rates req).serviceCharge =
        serviceChargeFlat req.tariffType * (req.billingDays / 31)
    ∧ (calculateBill rates
        (Request.mk req.prevReading req.currReading 62 req.prevBalance
          req.payments req.adjustment req.tariffType false)).serviceCharge =
      2 * (calculateBill rates
        (Request.mk req.prevReading req.currReading 31 req.prevBalance
          req.payments req.adjustment req.tariffType false)).serviceCharge := by
  obtain ⟨p, c, d, pb, pay, adj, t, q⟩ := req
  simp only at hq
  subst hq
  constructor
  · simp [calculateBill]
  · simp [calculateBill]
    ring

/-- Witness for C8: a detailed-mode residential request. -/
theorem spec_C8_witness :
    (calculateBill initialRates
        (Request.mk 100 220 40 0 0 0 .residential false)).serviceCharge =
      serviceChargeFlat .residential * (40 / 31)
    ∧ (calculateBill initialRates
        (Request.mk 100 220 62 0 0 0 .residential false)).serviceCharge =
      2 * (calculateBill initialRates
        (Request.mk 100 220 31 0 0 0 .residential false)).serviceCharge :=
  spec_C8 initialRates (Request.mk 100 220 40 0 0 0 .residential false) rfl

/-- C9: `unitsConsumed = max(currentReading - previousReading, 0)`; a
negative delta is clamped to zero (no error), so the band breakdown is empty
and the energy cost is zero. -/
theorem spec_C9 (rates : TariffKey → List Band) (req : Request) :
    (calculateBill rates req).units =
        max (req.currReading - req.prevReading) 0
    ∧ (req.currReading < req.prevReading →
        (calculateBill rates req).units = 0
        ∧ (calculateBill rates req).bandBreakdown = []
        ∧ (calculateBill rates req).energyCost = 0) := by
  have hu : (calculateBill rates req).units =
      max (req.currReading - req.prevReading) 0 := by
    simp [calculateBill]
  refine ⟨hu, fun hlt => ?_⟩
  have hz : max (req.currReading - req.prevReading) 0 = 0 :=
    max_eq_right (by linarith)
  have hbd : (calculateBill rates req).bandBreakdown = [] := by
    simp only [calculateBill, hz]
    exact allocate_nonpos _ 0 le_rfl
  refine ⟨hu.trans hz, hbd, ?_⟩
  have hec : (calculateBill rates req).energyCost =
      (((calculateBill rates req).bandBreakdown).map (fun e => e.cost)).sum := by
    simp [calculateBill]
  rw [hec, hbd]
  simp

/-- Witness for C9: a request with the current reading below the previous
one. -/
theorem spec_C9_witness :
    (calculateBill initialRates
        (Request.mk 220 100 31 0 0 0 .residential true)).units = 0
    ∧ (calculateBill initialRates
        (Request.mk 220 100 31 0 0 0 .residential true)).bandBreakdown = []
    ∧ (calculateBill initialRates
        (Request.mk 220 100 31 0 0 0 .residential true)).energyCost = 0 :=
  (spec_C9 initialRates (Request.mk 220 100 31 0 0 0 .residential true)).2
    (by decide)

/-- C10: a non-last band with limit 0 reached while `remaining > 0` emits a
`used = 0`, `cost = 0` entry and the loop continues to the next band with
`remaining` unchanged, so the breakdown can contain zero-consumption entries
in non-trailing positions and be longer than the number of bands that
received consumption. -/
theorem spec_C10 :
    (∀ (rate : ℚ) (rest : List Band) (r : ℚ), 0 < r →
        allocate (⟨.fin 0, rate⟩ :: rest) r =
          ⟨0, rate, 0⟩ :: allocate rest r)
    ∧ allocate [⟨.fin 0, 5⟩, ⟨.inf, 2⟩] 10 = [⟨0, 5, 0⟩, ⟨10, 2, 20⟩]
    ∧ (allocate [⟨.fin 0, 5⟩, ⟨.inf, 2⟩] 10).length = 2 := by
  refine ⟨fun rate rest r hr => ?_, by norm_num [allocate, minLimit],
    by norm_num [allocate, minLimit]⟩
  rw [allocate_cons_pos _ _ _ hr]
  have hmin : minLimit r (ELimit.fin 0) = 0 := by
    simp [minLimit, min_eq_right hr.le]
  rw [hmin]
  norm_num

/-- Witness for C10: the zero-limit step at rate 5 with 10 units
remaining. -/
theorem spec_C10_witness :
    allocate [⟨ELimit.fin 0, 5⟩, ⟨ELimit.inf, 2⟩] 10 =
      ⟨0, 5, 0⟩ :: allocate [⟨ELimit.inf, 2⟩] 10 :=
  spec_C10.1 5 [⟨ELimit.inf, 2⟩] 10 (by decide)

end EcgBillCalc
